import Mathlib

/-!
Shallow embedding of `src/main.rs` of Music-Shelf-Manager.

Strings are modelled as Lean `String` / `List Char` (Rust `String` / `&str`
are UTF-8, so this is exact at the scalar-value level); paths handled by
`std::path::PathBuf` are modelled at the component/string level by
`pathPush`, and — for the UTF-8 panic analysis — at the byte level.
Filesystem effects (tag reading, copying, removal) are modelled by
environment fields recording the outcome the OS would return.
-/

namespace MusicShelf

/-- Constant `FORBIDDEN_SYMBOLS` from main.rs line 8. -/
def FORBIDDEN_SYMBOLS : List Char := ['<', '>', ':', '\"', '/', '\\', '|', '?', '*']

/-- Constant `RESERVED_WINDOWS_NAMES` from main.rs line 9. -/
def RESERVED_WINDOWS_NAMES : List (List Char) :=
  [ "CON".data, "PRN".data, "AUX".data, "NUL".data,
    "COM1".data, "COM2".data, "COM3".data, "COM4".data, "COM5".data,
    "COM6".data, "COM7".data, "COM8".data, "COM9".data,
    "LPT1".data, "LPT2".data, "LPT3".data, "LPT4".data, "LPT5".data,
    "LPT6".data, "LPT7".data, "LPT8".data, "LPT9".data ]

/-- Rust `str::replacen(sub, repl, 1)`: replace the first textual occurrence
of `sub` with `repl`, leave the rest unchanged. -/
def replaceFirst (sub repl : List Char) : List Char → List Char
  | [] => if sub = [] then repl else []
  | c :: rest =>
    if sub <+: (c :: rest) then repl ++ (c :: rest).drop sub.length
    else c :: replaceFirst sub repl rest

/-- The intermediate `result` of `normalize_path_entry` (main.rs lines 155-157):
every forbidden symbol replaced by `_`, then every control character
(code point 0..=31) removed. -/
def cleanedChars (path_entry : List Char) : List Char :=
  (path_entry.map (fun c => if c ∈ FORBIDDEN_SYMBOLS then '_' else c)).filter
    (fun c => decide (31 < c.toNat))

/-- Function `normalize_path_entry` from main.rs lines 153-168, on character lists.
`splitn(2, ".").first()` is the prefix before the first `.` (the whole
string when there is no `.`); when that prefix is a reserved Windows
device name the first occurrence of it in the whole string is replaced
by `_` (`replacen(filename, "_", 1)`). -/
def normalizeChars (path_entry : List Char) : List Char :=
  if (cleanedChars path_entry).takeWhile (fun c => c != '.') ∈ RESERVED_WINDOWS_NAMES then
    replaceFirst ((cleanedChars path_entry).takeWhile (fun c => c != '.')) ['_']
      (cleanedChars path_entry)
  else cleanedChars path_entry

/-- Function `normalize_path_entry` from main.rs lines 153-168. -/
def normalize_path_entry (path_entry : String) : String :=
  String.mk (normalizeChars path_entry.data)

instance instDecEqExcept [DecidableEq ε] [DecidableEq α] : DecidableEq (Except ε α) := fun x y =>
  match x, y with
  | Except.ok a, Except.ok b =>
    match decEq a b with
    | isTrue h => isTrue (congrArg Except.ok h)
    | isFalse h => isFalse (fun hh => h (Except.ok.inj hh))
  | Except.ok _, Except.error _ => isFalse (fun hh => Except.noConfusion hh)
  | Except.error _, Except.ok _ => isFalse (fun hh => Except.noConfusion hh)
  | Except.error a, Except.error b =>
    match decEq a b with
    | isTrue h => isTrue (congrArg Except.error h)
    | isFalse h => isFalse (fun hh => h (Except.error.inj hh))

/-- The variants of `id3::ErrorKind` that main.rs constructs (`NoTag`,
`Io(..)`, `InvalidInput`); the `io::Error` payload of `Io` is carried
only through the `description` text of `Id3Error`, so it is not repeated
here. -/
inductive ErrorKind where
  | NoTag
  | IoError
  | InvalidInput
deriving DecidableEq, Repr

/-- Structure `id3::Error`, restricted to the two fields main.rs reads
(`err.kind`, `err.description`). -/
structure Id3Error where
  kind : ErrorKind
  description : String
deriving DecidableEq, Repr

/-- The `struct RequiredTags` from main.rs lines 25-29. -/
structure RequiredTags where
  artist : String
  album : String
  title : String
deriving DecidableEq, Repr

/-- The tag data main.rs reads from an `id3::Tag`: the three optional
lookups `album_artist()`, `album()`, `title()` (spec section 3,
MetadataSource). -/
structure MetadataSource where
  album_artist : Option String
  album : Option String
  title : Option String
deriving DecidableEq, Repr

/-- Rust `Option::ok_or`. -/
def okOr (o : Option α) (e : β) : Except β α :=
  match o with
  | some a => Except.ok a
  | none => Except.error e

/-- The `required_tags` vector built in `handle_file` (main.rs lines 78-82):
album-artist, album, title, in that fixed order, each `ok_or` a
`NoTag` error with a field-specific message. -/
def requiredTagResults (tag : MetadataSource) : List (Except Id3Error String) :=
  [ okOr tag.album_artist (Id3Error.mk ErrorKind.NoTag "No album artist found"),
    okOr tag.album (Id3Error.mk ErrorKind.NoTag "No album found"),
    okOr tag.title (Id3Error.mk ErrorKind.NoTag "No title found") ]

/-- The body of the `for current_tag in tags` loop of `handle_tags`
(main.rs lines 106-131). -/
def handleTagsStep (result : Except (List Id3Error) (List String))
    (current_tag : Except Id3Error String) : Except (List Id3Error) (List String) :=
  match result with
  | Except.ok tags =>
    match current_tag with
    | Except.ok tag_value => Except.ok (tags ++ [tag_value])
    | Except.error tag_error => Except.error [tag_error]
  | Except.error errors =>
    match current_tag with
    | Except.ok _ => Except.error errors
    | Except.error tag_error => Except.error (errors ++ [tag_error])

/-- Function `handle_tags` from main.rs lines 103-134: fold the loop body over the
input vector starting from `Ok(Vec::new())`. -/
def handle_tags (tags : List (Except Id3Error String)) : Except (List Id3Error) (List String) :=
  tags.foldl handleTagsStep (Except.ok [])

/-- The `if let [artist, album, title] = &tags[..]` pattern match of
`handle_file` (main.rs lines 86-94); `none` models the
`panic!("Tags amount does not match expected (3).")` branch. -/
def tagsToRequired : List String → Option RequiredTags
  | [artist, album, title] => some { artist := artist, album := album, title := title }
  | _ => none

/-- The validation phase of `handle_file` (main.rs lines 71-95): a failed
`Tag::read_from_path` short-circuits with that single error; otherwise
the three field reads go through `handle_tags` and the result vector is
pattern-matched into a `RequiredTags`. -/
def validate_file (tag_result : Except Id3Error MetadataSource) :
    Except (List Id3Error) (Option RequiredTags) :=
  match tag_result with
  | Except.error e => Except.error [e]
  | Except.ok tag => (handle_tags (requiredTagResults tag)).map tagsToRequired

/-- Rust `Result::is_ok`. -/
def exceptIsOk : Except ε α → Bool
  | Except.ok _ => true
  | Except.error _ => false

/-- The per-file environment: the outcome the outside world returns for each
of the three IO actions main.rs performs on one file
(`Tag::read_from_path`, `fs::create_dir_all` + `fs::copy` inside
`copy_file`, and `fs::remove_file`). -/
structure FileSpec where
  path : String
  tag_result : Except Id3Error MetadataSource
  copy_result : Except Id3Error Unit
  remove_result : Except String Unit
deriving DecidableEq, Repr

/-- Function `handle_file` from main.rs lines 71-100 at the outcome level: validation
errors propagate unchanged; on validation success the copy outcome is
returned, a copy error wrapped as a singleton list (`map_err(|e| vec![e])`). -/
def handle_file (f : FileSpec) : Except (List Id3Error) Unit :=
  match validate_file f.tag_result with
  | Except.error es => Except.error es
  | Except.ok _ => match f.copy_result with
    | Except.ok _ => Except.ok ()
    | Except.error e => Except.error [e]

/-- Rust `std::path::Path::file_name` on a Unix path given as a character list:
the last component (trailing separators ignored); `none` for an empty
path, a path ending in the special components `.` or `..`, or a bare
root. -/
def file_name (p : List Char) : Option (List Char) :=
  let rev := p.reverse.dropWhile (fun c => c == '/')
  let nm := (rev.takeWhile (fun c => c != '/')).reverse
  if nm = [] ∨ nm = ['.'] ∨ nm = ['.', '.'] then none else some nm

/-- Rust `std::path::Path::extension`: the portion of the file name after the
last `.`; `none` when there is no `.` or when the only `.` is the
leading one of a hidden file. -/
def extensionOf (p : List Char) : Option (List Char) :=
  match file_name p with
  | none => none
  | some nm =>
    if nm.contains '.' then
      let afterRev := nm.reverse.takeWhile (fun c => c != '.')
      if nm.length = afterRev.length + 1 then none else some afterRev.reverse
    else none

/-- Rust `std::path::PathBuf::push` on Unix paths held as character lists: an
absolute component replaces the path; otherwise a `/` separator is
inserted when the buffer is non-empty and does not already end in `/`. -/
def pathPush (base comp : List Char) : List Char :=
  if comp.head? = some '/' then comp
  else if base = [] then comp
  else if base.getLast? = some '/' then base ++ comp
  else base ++ '/' :: comp

/-- Function `generate_target_path` from main.rs lines 136-151: push the root folder,
the sanitized artist and album, then the sanitized title with the source
path's extension appended verbatim (`.` + extension) when present (the
Rust locals `result_path` and `full_target_filename` are inlined). -/
def generate_target_path (source : String) (root_folder : String) (tags : RequiredTags) : String :=
  String.mk
    (pathPush
      (pathPush
        (pathPush (pathPush [] root_folder.data) (normalizeChars tags.artist.data))
        (normalizeChars tags.album.data))
      (match extensionOf source.data with
       | some ext => normalizeChars tags.title.data ++ '.' :: ext
       | none => normalizeChars tags.title.data))

/-- Instrumentation events for the batch loop of `main` (main.rs lines
50-67), indexed by the position of the file in the batch: `validate` is
the tag read plus `handle_tags`, `buildPath` is `generate_target_path`,
`copy` is the `copy_file` call (directory creation plus byte copy),
`report` is `print_handling_status`, `removeSource` is `fs::remove_file`
and `warnRemoval` is the warning printed when removal fails. -/
inductive Event where
  | validate (i : Nat)
  | buildPath (i : Nat)
  | copy (i : Nat)
  | report (i : Nat)
  | removeSource (i : Nat)
  | warnRemoval (i : Nat)
deriving DecidableEq, Repr

/-- The batch index an event talks about. -/
def eventIdx : Event → Nat
  | Event.validate i => i
  | Event.buildPath i => i
  | Event.copy i => i
  | Event.report i => i
  | Event.removeSource i => i
  | Event.warnRemoval i => i

/-- The events `handle_file` emits: validation always runs; path building
and the copy call happen exactly when validation succeeded (they live in
the `map`/`and_then` chain of main.rs lines 84-99). -/
def handleFileEvents (i : Nat) (f : FileSpec) : List Event :=
  Event.validate i ::
    (match validate_file f.tag_result with
     | Except.error _ => []
     | Except.ok _ => [Event.buildPath i, Event.copy i])

/-- The events one iteration of the `for file in args.files` loop emits
(main.rs lines 50-67): `handle_file`, then `print_handling_status`, then
— only when `remove_source_file` is set and the file result is ok —
`fs::remove_file`, whose failure prints a warning. -/
def perFileEvents (remove_source_file : Bool) (i : Nat) (f : FileSpec) : List Event :=
  handleFileEvents i f ++ [Event.report i] ++
    (if remove_source_file && exceptIsOk (handle_file f) then
      Event.removeSource i ::
        (match f.remove_result with
         | Except.ok _ => []
         | Except.error _ => [Event.warnRemoval i])
     else [])

/-- One iteration of the batch loop at the trace level: the events emitted
so far, extended by this file's events. -/
def mainStep (remove_source_file : Bool) (acc : List Event) (p : Nat × FileSpec) : List Event :=
  acc ++ perFileEvents remove_source_file p.1 p.2

/-- The full event trace of `main`'s batch loop (main.rs lines 50-67) over
the indexed file list. -/
def mainTrace (remove_source_file : Bool) (files : List FileSpec) : List Event :=
  (files.enum).foldl (mainStep remove_source_file) []

/-!
Byte-level model of `OsStr` paths, used for the `to_str().unwrap()` panic
analysis: a Unix `OsStr` is an arbitrary byte sequence, and `to_str`
succeeds exactly when the bytes are valid UTF-8.
-/

/-- States of the standard UTF-8 validation automaton: `start` between
scalar values, `one`/`two`/`three` that many continuation bytes still
expected, the `E0`/`ED`/`F0`/`F4` variants with the restricted range for
the next byte (overlong/surrogate/out-of-range exclusion). -/
inductive Utf8State where
  | start
  | one
  | two
  | twoE0
  | twoED
  | three
  | threeF0
  | threeF4
  | reject
deriving DecidableEq, Repr

/-- One byte of the UTF-8 validation automaton. -/
def utf8Step (st : Utf8State) (b : Nat) : Utf8State :=
  match st with
  | Utf8State.start =>
    if b ≤ 0x7F then Utf8State.start
    else if 0xC2 ≤ b ∧ b ≤ 0xDF then Utf8State.one
    else if b = 0xE0 then Utf8State.twoE0
    else if 0xE1 ≤ b ∧ b ≤ 0xEC then Utf8State.two
    else if b = 0xED then Utf8State.twoED
    else if 0xEE ≤ b ∧ b ≤ 0xEF then Utf8State.two
    else if b = 0xF0 then Utf8State.threeF0
    else if 0xF1 ≤ b ∧ b ≤ 0xF3 then Utf8State.three
    else if b = 0xF4 then Utf8State.threeF4
    else Utf8State.reject
  | Utf8State.one => if 0x80 ≤ b ∧ b ≤ 0xBF then Utf8State.start else Utf8State.reject
  | Utf8State.two => if 0x80 ≤ b ∧ b ≤ 0xBF then Utf8State.one else Utf8State.reject
  | Utf8State.twoE0 => if 0xA0 ≤ b ∧ b ≤ 0xBF then Utf8State.one else Utf8State.reject
  | Utf8State.twoED => if 0x80 ≤ b ∧ b ≤ 0x9F then Utf8State.one else Utf8State.reject
  | Utf8State.three => if 0x80 ≤ b ∧ b ≤ 0xBF then Utf8State.two else Utf8State.reject
  | Utf8State.threeF0 => if 0x90 ≤ b ∧ b ≤ 0xBF then Utf8State.two else Utf8State.reject
  | Utf8State.threeF4 => if 0x80 ≤ b ∧ b ≤ 0x8F then Utf8State.two else Utf8State.reject
  | Utf8State.reject => Utf8State.reject

/-- A byte sequence is valid UTF-8 iff the automaton ends back in `start`;
this is exactly the success condition of `OsStr::to_str`. -/
def validUtf8 (bs : List Nat) : Bool :=
  decide (bs.foldl utf8Step Utf8State.start = Utf8State.start)

/-- The UTF-8 encoding of one scalar value. -/
def utf8EncodeChar (c : Char) : List Nat :=
  let n := c.toNat
  if n < 0x80 then [n]
  else if n < 0x800 then [0xC0 + n / 0x40, 0x80 + n % 0x40]
  else if n < 0x10000 then [0xE0 + n / 0x1000, 0x80 + n / 0x40 % 0x40, 0x80 + n % 0x40]
  else [0xF0 + n / 0x40000, 0x80 + n / 0x1000 % 0x40, 0x80 + n / 0x40 % 0x40, 0x80 + n % 0x40]

/-- The UTF-8 bytes of a Rust `String`. -/
def strBytes (s : String) : List Nat := (s.data.map utf8EncodeChar).flatten

/-- Rust `Path::file_name` at the byte level (`47 = '/'`, `46 = '.'`). -/
def fileNameBytes (p : List Nat) : Option (List Nat) :=
  let rev := p.reverse.dropWhile (fun b => b == 47)
  let nm := (rev.takeWhile (fun b => b != 47)).reverse
  if nm = [] ∨ nm = [46] ∨ nm = [46, 46] then none else some nm

/-- Rust `Path::extension` at the byte level. -/
def extensionBytes (p : List Nat) : Option (List Nat) :=
  match fileNameBytes p with
  | none => none
  | some nm =>
    if nm.contains 46 then
      let afterRev := nm.reverse.takeWhile (fun b => b != 46)
      if nm.length = afterRev.length + 1 then none else some afterRev.reverse
    else none

/-- Rust `Path::parent` at the byte level: strip trailing separators, then the
file name, then its separators; `none` for an empty path or a bare
root. -/
def parentBytes (p : List Nat) : Option (List Nat) :=
  let t := (p.reverse.dropWhile (fun b => b == 47)).reverse
  if t = [] then none
  else
    let r := t.reverse.dropWhile (fun b => b != 47)
    let r2 := r.dropWhile (fun b => b == 47)
    if r2 = [] then (if t.head? = some 47 then some [47] else some []) else some r2.reverse

/-- Rust `PathBuf::push` at the byte level. -/
def pathPushBytes (base comp : List Nat) : List Nat :=
  if comp.head? = some 47 then comp
  else if base = [] then comp
  else if base.getLast? = some 47 then base ++ comp
  else base ++ 47 :: comp

/-- Function `generate_target_path` (main.rs lines 136-151) at the `OsStr` byte
level: the result is `none` exactly when `ext.to_str().unwrap()`
(line 143) panics because the source path's extension is not valid
UTF-8; the sanitized tag segments are Rust `String`s, contributed as
their UTF-8 bytes. -/
def generate_target_path_bytes (source : List Nat) (root_folder : List Nat) (tags : RequiredTags) :
    Option (List Nat) :=
  match extensionBytes source with
  | some ext =>
    if validUtf8 ext then
      some (pathPushBytes
        (pathPushBytes
          (pathPushBytes (pathPushBytes [] root_folder)
            (strBytes (normalize_path_entry tags.artist)))
          (strBytes (normalize_path_entry tags.album)))
        (strBytes (normalize_path_entry tags.title) ++ 46 :: ext))
    else none
  | none =>
    some (pathPushBytes
      (pathPushBytes
        (pathPushBytes (pathPushBytes [] root_folder)
          (strBytes (normalize_path_entry tags.artist)))
        (strBytes (normalize_path_entry tags.album)))
      (strBytes (normalize_path_entry tags.title)))

/-- Function `copy_file` (main.rs lines 170-181) at the `OsStr` byte level, with the
filesystem outcomes of `fs::create_dir_all` and `fs::copy` supplied as
booleans. The result is `none` exactly when one of the two
`to_str().unwrap()` calls panics: `target.to_str().unwrap()` on line 172
is evaluated eagerly (it sits in the argument of `ok_or`), and
`parent_dir.to_str().unwrap()` on line 174 is evaluated inside the
`map_err` closure, hence only when directory creation fails. The
formatted path inside each message is elided, since a panicking format
is the modelled `none` case. -/
def copy_file_bytes (target : List Nat) (create_dir_ok : Bool) (copy_ok : Bool) :
    Option (Except Id3Error Unit) :=
  if validUtf8 target then
    match parentBytes target with
    | none =>
      some (Except.error ⟨ErrorKind.InvalidInput, "Unexpected error while copying file to target"⟩)
    | some parent_dir =>
      if create_dir_ok then
        if copy_ok then some (Except.ok ())
        else some (Except.error ⟨ErrorKind.IoError, "Failed to copy file"⟩)
      else
        if validUtf8 parent_dir then
          some (Except.error ⟨ErrorKind.IoError, "Cannot create directory"⟩)
        else none
  else none

/-!
Spec-side definitions, written from the spec's words, for the refinement
claims about validation (spec sections 4.1 and 8): they are compared with
`validate_file`, which is translated from the source.
-/

/-- Spec-side: one `MissingField` error per absent field, in
artist, album, title order. -/
def missingFieldErrorsSpec (src : MetadataSource) : List Id3Error :=
  (if src.album_artist.isNone then [⟨ErrorKind.NoTag, "No album artist found"⟩] else []) ++
    (if src.album.isNone then [⟨ErrorKind.NoTag, "No album found"⟩] else []) ++
    (if src.title.isNone then [⟨ErrorKind.NoTag, "No title found"⟩] else [])

/-- Spec-side: the number of absent fields. -/
def absentCountSpec (src : MetadataSource) : Nat :=
  (if src.album_artist.isNone then 1 else 0) +
    (if src.album.isNone then 1 else 0) +
    (if src.title.isNone then 1 else 0)

/-- Spec-side: a `RequiredTags` record when all three fields are present,
otherwise the full ordered error list. -/
def validationExpectedSpec (src : MetadataSource) :
    Except (List Id3Error) (Option RequiredTags) :=
  match src.album_artist, src.album, src.title with
  | some a, some al, some t => Except.ok (some { artist := a, album := al, title := t })
  | _, _, _ => Except.error (missingFieldErrorsSpec src)

/-- The payload of an ok result. -/
def exceptToOption : Except ε α → Option α
  | Except.ok a => some a
  | Except.error _ => none

/-- A sample file whose tags are complete, whose copy succeeds and whose
source removal is denied by the OS. -/
def removalDeniedFile : FileSpec :=
  ⟨"track.mp3", Except.ok ⟨some "A", some "B", some "C"⟩, Except.ok (), Except.error "denied"⟩

/-! ### Helper lemmas about the sanitizer -/

lemma mem_replaceFirst {c : Char} {sub repl : List Char} :
    ∀ {l : List Char}, c ∈ replaceFirst sub repl l → c ∈ l ∨ c ∈ repl := by
  intro l
  induction l with
  | nil =>
    intro h
    unfold replaceFirst at h
    split at h
    · exact Or.inr h
    · exact absurd h (List.not_mem_nil c)
  | cons a rest ih =>
    intro h
    unfold replaceFirst at h
    split at h
    · rcases List.mem_append.mp h with h1 | h1
      · exact Or.inr h1
      · exact Or.inl (List.mem_of_mem_drop h1)
    · rcases List.mem_cons.mp h with rfl | h1
      · exact Or.inl (by simp)
      · rcases ih h1 with h2 | h2
        · exact Or.inl (List.mem_cons_of_mem a h2)
        · exact Or.inr h2

lemma mem_cleanedChars {c : Char} {s : List Char} (h : c ∈ cleanedChars s) :
    c ∉ FORBIDDEN_SYMBOLS ∧ 31 < c.toNat := by
  unfold cleanedChars at h
  have h1 := List.mem_filter.mp h
  have h2 : 31 < c.toNat := by simpa using h1.2
  obtain ⟨x, hx, hfx⟩ := List.mem_map.mp h1.1
  refine ⟨?_, h2⟩
  by_cases hxf : x ∈ FORBIDDEN_SYMBOLS
  · rw [if_pos hxf] at hfx
    rw [← hfx]
    decide
  · rw [if_neg hxf] at hfx
    rw [← hfx]
    exact hxf

lemma mem_normalizeChars {c : Char} {s : List Char} (h : c ∈ normalizeChars s) :
    c ∉ FORBIDDEN_SYMBOLS ∧ 31 < c.toNat := by
  unfold normalizeChars at h
  split at h
  · rcases mem_replaceFirst h with h1 | h1
    · exact mem_cleanedChars h1
    · have : c = '_' := by simpa using h1
      rw [this]
      decide
  · exact mem_cleanedChars h

lemma map_id_of_forall_mem {α : Type} {f : α → α} :
    ∀ {l : List α}, (∀ a ∈ l, f a = a) → l.map f = l := by
  intro l
  induction l with
  | nil => intro _; rfl
  | cons a rest ih =>
    intro h
    simp only [List.map_cons]
    rw [h a (by simp), ih (fun x hx => h x (by simp [hx]))]

lemma replaceFirst_of_pre {sub l : List Char} (repl : List Char) (h : sub <+: l) :
    replaceFirst sub repl l = repl ++ l.drop sub.length := by
  obtain ⟨t, rfl⟩ := h
  cases sub with
  | nil =>
    cases t with
    | nil => simp [replaceFirst]
    | cons a t => simp [replaceFirst, List.nil_prefix]
  | cons b bs =>
    simp only [List.cons_append]
    have hp : b :: bs <+: b :: (bs ++ t) := ⟨t, by simp⟩
    rw [replaceFirst, if_pos hp]

/-! ### Theorems for the sanitizer claims -/

/-- C3: for every input string `s`, the sanitized result
`normalize_path_entry s` contains none of the 9 forbidden characters
`< > : " / \ | ? *` and no character whose code point lies in [0, 31]. -/
theorem c3_sanitizer_output_safe (s : String) :
    (normalize_path_entry s).data.all
      (fun c => !(decide (c ∈ FORBIDDEN_SYMBOLS)) && decide (31 < c.toNat)) = true := by
  rw [List.all_eq_true]
  intro c hc
  have h : c ∈ normalizeChars s.data := by simpa [normalize_path_entry] using hc
  have h2 := mem_normalizeChars h
  simp [h2.1, h2.2]

/-- C8: sanitization is the identity — hence idempotent — on every string
already free of the 9 forbidden characters and of control codes in
[0, 31] whose pre-extension prefix is not a reserved device name:
`sanitize (sanitize s) = sanitize s = s`. -/
theorem c8_sanitize_identity_idempotent (s : String)
    (h1 : ∀ c ∈ s.data, c ∉ FORBIDDEN_SYMBOLS ∧ 31 < c.toNat)
    (h2 : s.data.takeWhile (fun c => c != '.') ∉ RESERVED_WINDOWS_NAMES) :
    normalize_path_entry s = s ∧
      normalize_path_entry (normalize_path_entry s) = normalize_path_entry s := by
  have hclean : cleanedChars s.data = s.data := by
    unfold cleanedChars
    rw [map_id_of_forall_mem (fun c hc => if_neg (h1 c hc).1)]
    exact List.filter_eq_self.mpr (fun c hc => by simpa using (h1 c hc).2)
  have hnorm : normalizeChars s.data = s.data := by
    unfold normalizeChars
    simp only [hclean]
    exact if_neg h2
  have hid : normalize_path_entry s = s := by
    show String.mk (normalizeChars s.data) = s
    rw [hnorm]
  exact ⟨hid, by simp only [hid]⟩

theorem c8_witness :
    normalize_path_entry "hello" = "hello" ∧
      normalize_path_entry (normalize_path_entry "hello") = normalize_path_entry "hello" :=
  c8_sanitize_identity_idempotent "hello" (by decide) (by decide)

/-- C2: whenever the prefix of the cleaned string before the first `.`
(case-sensitively) equals a reserved device name, the sanitizer
replaces the first textual occurrence of that substring in the full
string with `_`; since that prefix always occurs at position 0, the
replacement yields `_` followed by the remainder after the prefix. -/
theorem c2_reserved_first_occurrence (s : String)
    (h : (cleanedChars s.data).takeWhile (fun c => c != '.') ∈ RESERVED_WINDOWS_NAMES) :
    (normalize_path_entry s).data =
        replaceFirst ((cleanedChars s.data).takeWhile (fun c => c != '.')) ['_']
          (cleanedChars s.data) ∧
      replaceFirst ((cleanedChars s.data).takeWhile (fun c => c != '.')) ['_']
          (cleanedChars s.data) =
        '_' :: (cleanedChars s.data).drop
          ((cleanedChars s.data).takeWhile (fun c => c != '.')).length := by
  constructor
  · show (String.mk (normalizeChars s.data)).data = _
    show normalizeChars s.data = _
    unfold normalizeChars
    rw [if_pos h]
  · have hpre : (cleanedChars s.data).takeWhile (fun c => c != '.') <+: cleanedChars s.data :=
      List.takeWhile_prefix _
    rw [replaceFirst_of_pre _ hpre]
    rfl

theorem c2_witness :
    ((normalize_path_entry "NUL").data =
        replaceFirst ((cleanedChars "NUL".data).takeWhile (fun c => c != '.')) ['_']
          (cleanedChars "NUL".data) ∧
      replaceFirst ((cleanedChars "NUL".data).takeWhile (fun c => c != '.')) ['_']
          (cleanedChars "NUL".data) =
        '_' :: (cleanedChars "NUL".data).drop
          ((cleanedChars "NUL".data).takeWhile (fun c => c != '.')).length) ∧
      normalize_path_entry "NUL" ++ "." ++ "mp3" = "_.mp3" :=
  ⟨c2_reserved_first_occurrence "NUL" (by decide), by decide⟩

/-- C1: for every metadata source that opens successfully, validation
returns exactly the spec-side expected result — a `RequiredTags` record
when album-artist, album and title are all present, otherwise the list
with one `MissingField` error per absent field, in artist, album, title
order; the error count equals the number of absent fields, and success
holds iff all three fields are present. -/
theorem c1_validation_total_ordered (src : MetadataSource) :
    validate_file (Except.ok src) = validationExpectedSpec src ∧
      (missingFieldErrorsSpec src).length = absentCountSpec src ∧
      (exceptIsOk (validate_file (Except.ok src)) = true ↔
        (src.album_artist.isSome = true ∧ src.album.isSome = true ∧
          src.title.isSome = true)) := by
  obtain ⟨a, al, t⟩ := src
  rcases a with _ | a <;> rcases al with _ | al <;> rcases t with _ | t <;>
    exact ⟨rfl, rfl, by
      simp [validate_file, requiredTagResults, okOr, handle_tags, handleTagsStep,
        exceptIsOk, tagsToRequired, Except.map]⟩

/-! ### Helper lemmas about `handle_tags` and `handle_file` -/

lemma handleTags_foldl_from_error :
    ∀ (ts : List (Except Id3Error String)) (es : List Id3Error),
      ∃ es2, ts.foldl handleTagsStep (Except.error es) = Except.error (es ++ es2) := by
  intro ts
  induction ts with
  | nil => exact fun es => ⟨[], by simp⟩
  | cons t ts ih =>
    intro es
    cases t with
    | ok v =>
      obtain ⟨es2, h⟩ := ih es
      exact ⟨es2, by simpa [handleTagsStep] using h⟩
    | error e =>
      obtain ⟨es2, h⟩ := ih (es ++ [e])
      exact ⟨[e] ++ es2, by simp [handleTagsStep, h, List.append_assoc]⟩

lemma handleTags_foldl_from_ok :
    ∀ (ts : List (Except Id3Error String)) (acc : List String),
      (∀ vs, ts.foldl handleTagsStep (Except.ok acc) = Except.ok vs →
          vs = acc ++ ts.filterMap exceptToOption ∧ vs.length = acc.length + ts.length) ∧
      (∀ es, ts.foldl handleTagsStep (Except.ok acc) = Except.error es → es ≠ []) := by
  intro ts
  induction ts with
  | nil =>
    intro acc
    constructor
    · intro vs h
      simp only [List.foldl_nil] at h
      cases h
      simp
    · intro es h
      simp at h
  | cons t ts ih =>
    intro acc
    cases t with
    | ok v =>
      constructor
      · intro vs h
        simp only [List.foldl_cons, handleTagsStep] at h
        obtain ⟨h1, h2⟩ := (ih (acc ++ [v])).1 vs h
        refine ⟨by simp [h1, exceptToOption], by simp [h2]; omega⟩
      · intro es h
        simp only [List.foldl_cons, handleTagsStep] at h
        exact (ih (acc ++ [v])).2 es h
    | error e =>
      constructor
      · intro vs h
        simp only [List.foldl_cons, handleTagsStep] at h
        obtain ⟨es2, h2⟩ := handleTags_foldl_from_error ts [e]
        rw [h2] at h
        exact absurd h (by simp)
      · intro es h
        simp only [List.foldl_cons, handleTagsStep] at h
        obtain ⟨es2, h2⟩ := handleTags_foldl_from_error ts [e]
        rw [h2] at h
        cases h
        simp

lemma handle_tags_ok {ts : List (Except Id3Error String)} {vs : List String}
    (h : handle_tags ts = Except.ok vs) :
    vs = ts.filterMap exceptToOption ∧ vs.length = ts.length := by
  have := (handleTags_foldl_from_ok ts []).1 vs h
  simpa using this

lemma handle_tags_error {ts : List (Except Id3Error String)} {es : List Id3Error}
    (h : handle_tags ts = Except.error es) : es ≠ [] :=
  (handleTags_foldl_from_ok ts []).2 es h

lemma validate_file_ok_not_none {tr : Except Id3Error MetadataSource}
    {o : Option RequiredTags} (h : validate_file tr = Except.ok o) : o ≠ none := by
  cases tr with
  | error e => simp [validate_file] at h
  | ok src =>
    simp only [validate_file] at h
    cases heq : handle_tags (requiredTagResults src) with
    | error es => rw [heq] at h; simp [Except.map] at h
    | ok vs =>
      rw [heq] at h
      have hlen : vs.length = 3 := by
        have := (handle_tags_ok heq).2
        simpa [requiredTagResults] using this
      simp only [Except.map, Except.ok.injEq] at h
      rcases vs with _ | ⟨a, _ | ⟨b, _ | ⟨c, _ | ⟨d, vs⟩⟩⟩⟩ <;> simp at hlen <;>
        rw [← h] <;> simp [tagsToRequired]

lemma validate_file_error_ne_nil {tr : Except Id3Error MetadataSource}
    {es : List Id3Error} (h : validate_file tr = Except.error es) : es ≠ [] := by
  cases tr with
  | error e =>
    simp only [validate_file] at h
    cases h
    simp
  | ok src =>
    simp only [validate_file] at h
    cases heq : handle_tags (requiredTagResults src) with
    | error es2 =>
      rw [heq] at h
      simp only [Except.map, Except.error.injEq] at h
      cases h
      exact handle_tags_error heq
    | ok vs => rw [heq] at h; simp [Except.map] at h

lemma handle_file_error_ne_nil {f : FileSpec} {es : List Id3Error}
    (h : handle_file f = Except.error es) : es ≠ [] := by
  unfold handle_file at h
  cases hv : validate_file f.tag_result with
  | error es2 =>
    rw [hv] at h
    cases h
    exact validate_file_error_ne_nil hv
  | ok o =>
    rw [hv] at h
    cases hc : f.copy_result with
    | ok u => rw [hc] at h; cases u; simp at h
    | error e => rw [hc] at h; cases h; simp

/-! ### Theorems for the validation-shape and error-handling claims -/

/-- C9: `handle_tags` returns either `Ok` with exactly as many values as
inputs, in input order (the ok payloads in order), or `Err` with a
non-empty error list; hence the panic branch for a tag count other
than 3 in `handle_file` is unreachable (validation never returns
`ok none`), and every error outcome handed to `print_handling_status`
is non-empty, so its `split_first().unwrap()` cannot panic. -/
theorem c9_handle_tags_shape :
    (∀ (ts : List (Except Id3Error String)) (vs : List String),
        handle_tags ts = Except.ok vs →
          vs = ts.filterMap exceptToOption ∧ vs.length = ts.length) ∧
      (∀ (ts : List (Except Id3Error String)) (es : List Id3Error),
        handle_tags ts = Except.error es → es ≠ []) ∧
      (∀ (tr : Except Id3Error MetadataSource) (o : Option RequiredTags),
        validate_file tr = Except.ok o → o ≠ none) ∧
      (∀ (f : FileSpec) (es : List Id3Error),
        handle_file f = Except.error es → es ≠ []) :=
  ⟨fun _ _ h => handle_tags_ok h, fun _ _ h => handle_tags_error h,
    fun _ _ h => validate_file_ok_not_none h, fun _ _ h => handle_file_error_ne_nil h⟩

theorem c9_witness :
    ([⟨ErrorKind.NoTag, "No album found"⟩, ⟨ErrorKind.NoTag, "No title found"⟩] :
        List Id3Error) ≠ [] :=
  c9_handle_tags_shape.2.2.2
    ⟨"x.mp3", Except.ok ⟨some "A", none, none⟩, Except.ok (), Except.ok ()⟩ _ rfl

/-- C6: for every file whose validation fails, the outcome is exactly the
ordered validation error list, and neither the copy nor the path build
is attempted (the `copy` event covers `copy_file`, i.e. both directory
creation and the byte copy, so the filesystem is untouched for that
file). -/
theorem c6_validation_failure_no_copy (f : FileSpec) (i : Nat) (es : List Id3Error)
    (h : validate_file f.tag_result = Except.error es) :
    handle_file f = Except.error es ∧
      Event.copy i ∉ handleFileEvents i f ∧
      Event.buildPath i ∉ handleFileEvents i f := by
  refine ⟨?_, ?_, ?_⟩ <;> simp [handle_file, handleFileEvents, h]

theorem c6_witness :
    handle_file ⟨"x.mp3", Except.ok ⟨some "A", none, none⟩, Except.ok (), Except.ok ()⟩ =
        Except.error
          [⟨ErrorKind.NoTag, "No album found"⟩, ⟨ErrorKind.NoTag, "No title found"⟩] ∧
      Event.copy 0 ∉
        handleFileEvents 0 ⟨"x.mp3", Except.ok ⟨some "A", none, none⟩, Except.ok (), Except.ok ()⟩ ∧
      Event.buildPath 0 ∉
        handleFileEvents 0 ⟨"x.mp3", Except.ok ⟨some "A", none, none⟩, Except.ok (), Except.ok ()⟩ :=
  c6_validation_failure_no_copy _ 0 _ rfl

/-! ### Helper lemmas about the batch event trace -/

lemma foldl_mainStep_acc (flag : Bool) :
    ∀ (l : List (Nat × FileSpec)) (acc : List Event),
      l.foldl (mainStep flag) acc = acc ++ l.foldl (mainStep flag) [] := by
  intro l
  induction l with
  | nil => intro acc; simp
  | cons p l ih =>
    intro acc
    rw [List.foldl_cons, List.foldl_cons, ih (mainStep flag acc p), ih (mainStep flag [] p)]
    simp [mainStep, List.append_assoc]

lemma mainTrace_eq_flatMap (flag : Bool) (files : List FileSpec) :
    mainTrace flag files = (files.enum).flatMap (fun p => perFileEvents flag p.1 p.2) := by
  unfold mainTrace
  generalize files.enum = l
  induction l with
  | nil => rfl
  | cons p l ih =>
    rw [List.foldl_cons, foldl_mainStep_acc, ih]
    simp [mainStep]

lemma mem_foldl_enumFrom (flag : Bool) (e : Event) :
    ∀ (files : List FileSpec) (n : Nat),
      e ∈ (List.enumFrom n files).foldl (mainStep flag) [] ↔
        ∃ j, ∃ h : j < files.length, e ∈ perFileEvents flag (n + j) (files.get ⟨j, h⟩) := by
  intro files
  induction files with
  | nil => intro n; simp [List.enumFrom]
  | cons f fs ih =>
    intro n
    rw [show List.enumFrom n (f :: fs) = (n, f) :: List.enumFrom (n + 1) fs from rfl]
    rw [List.foldl_cons, foldl_mainStep_acc]
    constructor
    · intro h
      rcases List.mem_append.mp h with h1 | h1
      · exact ⟨0, Nat.succ_pos _, by simpa [mainStep] using h1⟩
      · obtain ⟨j, hj, hm⟩ := (ih (n + 1)).mp h1
        refine ⟨j + 1, Nat.succ_lt_succ hj, ?_⟩
        rw [show n + (j + 1) = n + 1 + j from by omega]
        exact hm
    · rintro ⟨j, hj, hm⟩
      apply List.mem_append.mpr
      cases j with
      | zero => exact Or.inl (by simpa [mainStep] using hm)
      | succ j =>
        refine Or.inr ((ih (n + 1)).mpr ⟨j, Nat.lt_of_succ_lt_succ hj, ?_⟩)
        rw [show n + 1 + j = n + (j + 1) from by omega]
        exact hm

lemma mem_mainTrace {flag : Bool} {e : Event} {files : List FileSpec} :
    e ∈ mainTrace flag files ↔
      ∃ j, ∃ h : j < files.length, e ∈ perFileEvents flag j (files.get ⟨j, h⟩) := by
  have h := mem_foldl_enumFrom flag e files 0
  simpa [mainTrace, List.enum] using h

lemma removeSource_mem_perFile {k i : Nat} {flag : Bool} {f : FileSpec} :
    Event.removeSource k ∈ perFileEvents flag i f ↔
      k = i ∧ flag = true ∧ exceptIsOk (handle_file f) = true := by
  unfold perFileEvents handleFileEvents
  cases hb : flag && exceptIsOk (handle_file f) with
  | false =>
    have hnot : ¬(flag = true ∧ exceptIsOk (handle_file f) = true) := by
      intro hcon
      rw [hcon.1, hcon.2] at hb
      simp at hb
    rcases validate_file f.tag_result with es | o <;> simp [hnot]
  | true =>
    have hb2 := hb
    rw [Bool.and_eq_true] at hb2
    rcases validate_file f.tag_result with es | o <;>
      rcases f.remove_result with u | e <;>
        simp [hb2.1, hb2.2]

lemma report_mem_perFile {k i : Nat} {flag : Bool} {f : FileSpec} :
    Event.report k ∈ perFileEvents flag i f ↔ k = i := by
  unfold perFileEvents handleFileEvents
  cases hb : flag && exceptIsOk (handle_file f) with
  | false => rcases validate_file f.tag_result with es | o <;> simp
  | true =>
    rcases validate_file f.tag_result with es | o <;>
      rcases f.remove_result with u | e <;> simp

lemma exceptIsOk_ok (a : α) : exceptIsOk (ε := ε) (Except.ok a) = true := rfl

lemma exceptIsOk_error (e : ε) : exceptIsOk (α := α) (Except.error e) = false := rfl

lemma warnRemoval_mem_perFile {k i : Nat} {flag : Bool} {f : FileSpec} :
    Event.warnRemoval k ∈ perFileEvents flag i f ↔
      k = i ∧ flag = true ∧ exceptIsOk (handle_file f) = true ∧
        exceptIsOk f.remove_result = false := by
  unfold perFileEvents handleFileEvents
  cases hb : flag && exceptIsOk (handle_file f) with
  | false =>
    have hnot : ¬(flag = true ∧ exceptIsOk (handle_file f) = true) := by
      intro hcon
      rw [hcon.1, hcon.2] at hb
      simp at hb
    rcases validate_file f.tag_result with es | o <;>
      · simp only [List.cons_append, List.nil_append, List.mem_cons, List.mem_append,
          List.mem_singleton, List.not_mem_nil]
        constructor
        · intro hcon
          rcases hcon with h1 | h1 | h1 | h1 <;> simp_all
        · intro hcon
          exact absurd ⟨hcon.2.1, hcon.2.2.1⟩ hnot
  | true =>
    have hb2 := hb
    rw [Bool.and_eq_true] at hb2
    rcases validate_file f.tag_result with es | o <;>
      rcases hr : f.remove_result with u | e <;>
        simp [hb2.1, hb2.2, exceptIsOk_ok, exceptIsOk_error]

/-! ### Theorems for the batch-orchestration claims -/

/-- C5 counterexample: on a batch of one valid file with the remove flag
set, the code's trace runs the report (`print_handling_status`,
main.rs line 54) before the source removal (line 57), so the trace is
not the claimed validate, buildPath, copy, removeSource, report
order. -/
theorem c5_counterexample :
    mainTrace true
        [⟨"track.mp3", Except.ok ⟨some "A", some "B", some "C"⟩, Except.ok (), Except.ok ()⟩] =
        [Event.validate 0, Event.buildPath 0, Event.copy 0, Event.report 0,
          Event.removeSource 0] ∧
      mainTrace true
        [⟨"track.mp3", Except.ok ⟨some "A", some "B", some "C"⟩, Except.ok (), Except.ok ()⟩] ≠
        [Event.validate 0, Event.buildPath 0, Event.copy 0, Event.removeSource 0,
          Event.report 0] :=
  ⟨by decide, by decide⟩

/-- C5 (amended): the batch trace is the concatenation, file by file in
batch order, of per-file traces — so each file's entire pipeline
completes before the next file's begins — and each per-file trace runs
validate, then (on validation success) build path and copy, then
report, then (only when the flag is set and the file's outcome is ok)
source removal with its failure warning. -/
theorem c5_sequential_pipeline (flag : Bool) (files : List FileSpec) :
    mainTrace flag files =
      (files.enum).flatMap (fun p =>
        Event.validate p.1 ::
          ((match validate_file p.2.tag_result with
            | Except.error _ => []
            | Except.ok _ => [Event.buildPath p.1, Event.copy p.1]) ++
            ([Event.report p.1] ++
              (if flag && exceptIsOk (handle_file p.2) then
                Event.removeSource p.1 ::
                  (match p.2.remove_result with
                   | Except.ok _ => []
                   | Except.error _ => [Event.warnRemoval p.1])
               else [])))) := by
  rw [mainTrace_eq_flatMap]
  apply List.flatMap_congr
  intro p _
  simp [perFileEvents, handleFileEvents, List.append_assoc]

/-- C7: the source file is removed only when the remove flag is set and
that file's copy (whole `handle_file`) succeeded; the outcome handed to
the reporter does not depend on the removal result; a failed removal
shows up exactly as a warning next to a success outcome; and every file
of the batch is reported regardless. -/
theorem c7_removal_policy (flag : Bool) (files : List FileSpec) (i : Nat)
    (h : i < files.length) :
    (Event.removeSource i ∈ mainTrace flag files ↔
        flag = true ∧ exceptIsOk (handle_file (files.get ⟨i, h⟩)) = true) ∧
      (∀ r, handle_file { files.get ⟨i, h⟩ with remove_result := r } =
          handle_file (files.get ⟨i, h⟩)) ∧
      (Event.warnRemoval i ∈ mainTrace flag files ↔
        flag = true ∧ exceptIsOk (handle_file (files.get ⟨i, h⟩)) = true ∧
          exceptIsOk (files.get ⟨i, h⟩).remove_result = false) ∧
      Event.report i ∈ mainTrace flag files := by
  refine ⟨?_, fun r => rfl, ?_, ?_⟩
  · rw [mem_mainTrace]
    constructor
    · rintro ⟨j, hj, hm⟩
      obtain ⟨rfl, hf, ho⟩ := removeSource_mem_perFile.mp hm
      exact ⟨hf, ho⟩
    · rintro ⟨hf, ho⟩
      exact ⟨i, h, removeSource_mem_perFile.mpr ⟨rfl, hf, ho⟩⟩
  · rw [mem_mainTrace]
    constructor
    · rintro ⟨j, hj, hm⟩
      obtain ⟨rfl, hf, ho, hr⟩ := warnRemoval_mem_perFile.mp hm
      exact ⟨hf, ho, hr⟩
    · rintro ⟨hf, ho, hr⟩
      exact ⟨i, h, warnRemoval_mem_perFile.mpr ⟨rfl, hf, ho, hr⟩⟩
  · rw [mem_mainTrace]
    exact ⟨i, h, report_mem_perFile.mpr rfl⟩

theorem c7_witness :
    Event.removeSource 0 ∈ mainTrace true [removalDeniedFile] ∧
      handle_file { removalDeniedFile with remove_result := Except.ok () } =
        handle_file removalDeniedFile ∧
      Event.warnRemoval 0 ∈ mainTrace true [removalDeniedFile] ∧
      Event.report 0 ∈ mainTrace true [removalDeniedFile] :=
  ⟨(c7_removal_policy true [removalDeniedFile] 0 (by decide)).1.mpr ⟨rfl, by decide⟩,
    (c7_removal_policy true [removalDeniedFile] 0 (by decide)).2.1 (Except.ok ()),
    (c7_removal_policy true [removalDeniedFile] 0 (by decide)).2.2.1.mpr
      ⟨rfl, by decide, by decide⟩,
    (c7_removal_policy true [removalDeniedFile] 0 (by decide)).2.2.2⟩

/-! ### Helper lemmas about path construction -/

lemma pathPush_nil (comp : List Char) : pathPush [] comp = comp := by
  unfold pathPush
  split
  · rfl
  · rw [if_pos rfl]

lemma pathPush_eq {base comp : List Char} (hb : base ≠ [])
    (hl : base.getLast? ≠ some '/') (hc : comp.head? ≠ some '/') :
    pathPush base comp = base ++ '/' :: comp := by
  unfold pathPush
  rw [if_neg hc, if_neg hb, if_neg hl]

lemma normalizeChars_head_ne_slash (l : List Char) :
    (normalizeChars l).head? ≠ some '/' := by
  intro h
  have hm : '/' ∈ normalizeChars l := List.mem_of_mem_head? (Option.mem_def.mpr h)
  exact (mem_normalizeChars hm).1 (by decide)

lemma normalizeChars_getLast_ne_slash (l : List Char) :
    (normalizeChars l).getLast? ≠ some '/' := by
  intro h
  obtain ⟨hne, heq⟩ := List.mem_getLast?_eq_getLast (Option.mem_def.mpr h)
  have hm : '/' ∈ normalizeChars l := heq ▸ List.getLast_mem hne
  exact (mem_normalizeChars hm).1 (by decide)

/-- C4: under the path-component reading of the claim (non-empty root
without a trailing separator, non-empty sanitized segments), the target
path is the string `root / sanitize(artist) / sanitize(album) /
sanitize(title)`, with `.` plus the source extension appended verbatim
exactly when the source carries an extension. -/
theorem c4_target_path_construction (source root : String) (tags : RequiredTags)
    (h1 : root.data ≠ [])
    (h2 : root.data.getLast? ≠ some '/')
    (h3 : normalizeChars tags.artist.data ≠ [])
    (h4 : normalizeChars tags.album.data ≠ [])
    (h5 : normalizeChars tags.title.data ≠ []) :
    generate_target_path source root tags =
      String.mk (root.data ++ '/' ::
        (normalizeChars tags.artist.data ++ '/' ::
          (normalizeChars tags.album.data ++ '/' ::
            (match extensionOf source.data with
             | some ext => normalizeChars tags.title.data ++ '.' :: ext
             | none => normalizeChars tags.title.data)))) := by
  unfold generate_target_path
  rw [pathPush_nil]
  rw [pathPush_eq h1 h2 (normalizeChars_head_ne_slash _)]
  have hb2 : root.data ++ '/' :: normalizeChars tags.artist.data ≠ [] := by simp
  have hl2 : (root.data ++ '/' :: normalizeChars tags.artist.data).getLast? ≠ some '/' := by
    rw [List.getLast?_append_of_ne_nil _ (by simp),
      show '/' :: normalizeChars tags.artist.data =
        ['/'] ++ normalizeChars tags.artist.data from rfl,
      List.getLast?_append_of_ne_nil _ h3]
    exact normalizeChars_getLast_ne_slash _
  rw [pathPush_eq hb2 hl2 (normalizeChars_head_ne_slash _)]
  have hb3 : (root.data ++ '/' :: normalizeChars tags.artist.data) ++
      '/' :: normalizeChars tags.album.data ≠ [] := by simp
  have hl3 : ((root.data ++ '/' :: normalizeChars tags.artist.data) ++
      '/' :: normalizeChars tags.album.data).getLast? ≠ some '/' := by
    rw [List.getLast?_append_of_ne_nil _ (by simp),
      show '/' :: normalizeChars tags.album.data =
        ['/'] ++ normalizeChars tags.album.data from rfl,
      List.getLast?_append_of_ne_nil _ h4]
    exact normalizeChars_getLast_ne_slash _
  have hcf : (match extensionOf source.data with
      | some ext => normalizeChars tags.title.data ++ '.' :: ext
      | none => normalizeChars tags.title.data).head? ≠ some '/' := by
    cases hx : extensionOf source.data with
    | none => exact normalizeChars_head_ne_slash _
    | some ext =>
      rw [List.head?_append_of_ne_nil _ h5]
      exact normalizeChars_head_ne_slash _
  rw [pathPush_eq hb3 hl3 hcf]
  congr 1
  simp [List.append_assoc]

theorem c4_witness :
    generate_target_path "track.mp3" "/music" ⟨"AC/DC", "Who Made Who", "CON"⟩ =
      "/music/AC_DC/Who Made Who/_.mp3" :=
  (c4_target_path_construction "track.mp3" "/music" ⟨"AC/DC", "Who Made Who", "CON"⟩
      (by decide) (by decide) (by decide) (by decide) (by decide)).trans (by decide)

/-! ### Helper lemmas about UTF-8 validity -/

lemma foldl_utf8Step_reject : ∀ l : List Nat, l.foldl utf8Step Utf8State.reject = Utf8State.reject := by
  intro l
  induction l with
  | nil => rfl
  | cons b l ih =>
    rw [List.foldl_cons, show utf8Step Utf8State.reject b = Utf8State.reject from rfl]
    exact ih

lemma utf8Step_47_of_ne_start {st : Utf8State} (h : st ≠ Utf8State.start) :
    utf8Step st 47 = Utf8State.reject := by
  cases st
  · exact absurd rfl h
  all_goals decide

lemma validUtf8_of_append_47 {l1 l2 : List Nat}
    (h : validUtf8 (l1 ++ 47 :: l2) = true) : validUtf8 l1 = true := by
  unfold validUtf8 at h ⊢
  by_cases hs : l1.foldl utf8Step Utf8State.start = Utf8State.start
  · exact decide_eq_true hs
  · exfalso
    have hrej : (l1 ++ 47 :: l2).foldl utf8Step Utf8State.start = Utf8State.reject := by
      rw [List.foldl_append, List.foldl_cons, utf8Step_47_of_ne_start hs,
        foldl_utf8Step_reject]
    have hok := of_decide_eq_true h
    rw [hok] at hrej
    exact absurd hrej (by decide)

lemma dropWhile_head_false {α : Type} (q : α → Bool) :
    ∀ (l : List α) {b : α} {tl : List α}, l.dropWhile q = b :: tl → q b = false := by
  intro l
  induction l with
  | nil => intro b tl h; simp at h
  | cons a l ih =>
    intro b tl h
    rw [List.dropWhile_cons] at h
    split at h
    · exact ih h
    · rename_i hq
      cases h
      exact Bool.eq_false_iff.mpr hq

lemma all47_cons (w : List Nat) (hall : ∀ x ∈ w, x = 47) (hne : w ≠ []) :
    ∃ w2, w = 47 :: w2 := by
  cases w with
  | nil => exact absurd rfl hne
  | cons c cs => exact ⟨cs, by rw [hall c (by simp)]⟩

lemma parentBytes_cases {p par : List Nat} (h : parentBytes p = some par) :
    par = [] ∨ par = [47] ∨ ∃ l2, p = par ++ 47 :: l2 := by
  simp only [parentBytes] at h
  set t := (p.reverse.dropWhile (fun b => b == 47)).reverse with ht
  set r := t.reverse.dropWhile (fun b => b != 47) with hr
  set r2 := r.dropWhile (fun b => b == 47) with hr2
  split at h
  · simp at h
  · rename_i hT
    split at h
    · split at h
      · refine Or.inr (Or.inl ?_)
        injection h with h
        exact h.symm
      · refine Or.inl ?_
        injection h with h
        exact h.symm
    · rename_i hR2
      injection h with h
      subst h
      refine Or.inr (Or.inr ?_)
      have hD : r ≠ [] := fun hre => hR2 (by rw [hr2, hre]; rfl)
      obtain ⟨b, rtl, hbr⟩ : ∃ b rtl, r = b :: rtl := by
        cases hc : r with
        | nil => exact absurd hc hD
        | cons b rtl => exact ⟨b, rtl, rfl⟩
      have hb47 : b = 47 := by
        have := dropWhile_head_false (fun b => b != 47) t.reverse (hr ▸ hbr)
        simpa using this
      have hTW : ∃ w2, (r.takeWhile (fun b => b == 47)).reverse = 47 :: w2 := by
        apply all47_cons
        · intro x hx
          rw [List.mem_reverse] at hx
          have := List.mem_takeWhile_imp hx
          simpa using this
        · rw [hbr, hb47]
          simp [List.takeWhile_cons]
      obtain ⟨w2, hw2⟩ := hTW
      have hB : t.reverse.takeWhile (fun b => b != 47) ++ r = t.reverse := by
        rw [hr]
        exact List.takeWhile_append_dropWhile ..
      have hC : r.takeWhile (fun b => b == 47) ++ r2 = r := by
        rw [hr2]
        exact List.takeWhile_append_dropWhile ..
      have ht_eq : t = r2.reverse ++ ((r.takeWhile (fun b => b == 47)).reverse ++
          (t.reverse.takeWhile (fun b => b != 47)).reverse) := by
        calc t = t.reverse.reverse := (List.reverse_reverse t).symm
        _ = (t.reverse.takeWhile (fun b => b != 47) ++ r).reverse := by rw [hB]
        _ = r.reverse ++ (t.reverse.takeWhile (fun b => b != 47)).reverse :=
          List.reverse_append ..
        _ = (r.takeWhile (fun b => b == 47) ++ r2).reverse ++
            (t.reverse.takeWhile (fun b => b != 47)).reverse := by rw [hC]
        _ = (r2.reverse ++ (r.takeWhile (fun b => b == 47)).reverse) ++
            (t.reverse.takeWhile (fun b => b != 47)).reverse := by
          rw [List.reverse_append]
        _ = r2.reverse ++ ((r.takeWhile (fun b => b == 47)).reverse ++
            (t.reverse.takeWhile (fun b => b != 47)).reverse) := by
          rw [List.append_assoc]
      have hp_eq : p = t ++ (p.reverse.takeWhile (fun b => b == 47)).reverse := by
        have hsplit : p.reverse.takeWhile (fun b => b == 47) ++
            p.reverse.dropWhile (fun b => b == 47) = p.reverse :=
          List.takeWhile_append_dropWhile ..
        have h2 : (p.reverse.takeWhile (fun b => b == 47) ++
            p.reverse.dropWhile (fun b => b == 47)).reverse = p.reverse.reverse := by
          rw [hsplit]
        rw [List.reverse_append, List.reverse_reverse] at h2
        rw [ht]
        exact h2.symm
      refine ⟨w2 ++ (t.reverse.takeWhile (fun b => b != 47)).reverse ++
        (p.reverse.takeWhile (fun b => b == 47)).reverse, ?_⟩
      conv_lhs => rw [hp_eq, ht_eq, hw2]
      simp [List.append_assoc]

lemma copy_file_bytes_isSome {target : List Nat} (h : validUtf8 target = true)
    (cd cp : Bool) : (copy_file_bytes target cd cp).isSome = true := by
  unfold copy_file_bytes
  rw [if_pos h]
  cases hp : parentBytes target with
  | none => rfl
  | some par =>
    cases cd with
    | true => cases cp <;> rfl
    | false =>
      have hv : validUtf8 par = true := by
        rcases parentBytes_cases hp with rfl | rfl | ⟨l2, rfl⟩
        · decide
        · decide
        · exact validUtf8_of_append_47 h
      simp [hv]

/-- C10: path building and the copy call are panic-free exactly on the
UTF-8 side conditions — for every source path whose extension decodes
as UTF-8, `ext.to_str().unwrap()` in `generate_target_path` succeeds;
for every valid-UTF-8 target path both `to_str().unwrap()` calls in
`copy_file` succeed for every filesystem outcome (the parent of a
valid-UTF-8 path is valid UTF-8); and there is a source path with a
non-UTF-8 extension on which `generate_target_path` panics instead of
producing a per-file error outcome. -/
theorem c10_utf8_unwrap_panics :
    (∀ (source root_folder : List Nat) (tags : RequiredTags),
        (∀ ext, extensionBytes source = some ext → validUtf8 ext = true) →
        (generate_target_path_bytes source root_folder tags).isSome = true) ∧
      (∀ (target : List Nat) (cd cp : Bool), validUtf8 target = true →
        (copy_file_bytes target cd cp).isSome = true) ∧
      (∃ source : List Nat, ∀ (root_folder : List Nat) (tags : RequiredTags),
        generate_target_path_bytes source root_folder tags = none) := by
  refine ⟨?_, fun t cd cp h => copy_file_bytes_isSome h cd cp, ?_⟩
  · intro source root tags hext
    unfold generate_target_path_bytes
    cases hx : extensionBytes source with
    | none => rfl
    | some ext =>
      have hv := hext ext hx
      simp [hv]
  · refine ⟨[116, 114, 97, 99, 107, 46, 255], fun root tags => ?_⟩
    unfold generate_target_path_bytes
    rw [show extensionBytes [116, 114, 97, 99, 107, 46, 255] = some [255] from by decide]
    simp [show validUtf8 [255] = false from by decide]

theorem c10_witness :
    (generate_target_path_bytes ("track.mp3".data.map Char.toNat)
        ("/music".data.map Char.toNat) ⟨"AC/DC", "Who Made Who", "CON"⟩).isSome = true ∧
      (copy_file_bytes ("/music/x".data.map Char.toNat) false false).isSome = true :=
  ⟨c10_utf8_unwrap_panics.1 _ _ _ (fun ext hx => by
      rw [show extensionBytes ("track.mp3".data.map Char.toNat) =
        some [109, 112, 51] from by decide] at hx
      cases hx
      decide),
    c10_utf8_unwrap_panics.2.1 _ false false (by decide)⟩

end MusicShelf
